import Mathlib

/-!
Shallow embedding of the chrome-tabber session reconciliation engine.

The definitions below are translated from the JavaScript sources:
  - `tabber_session.js` (TabberSession: toSync / fromSync / update / updateProps,
    isPropertyValid, isSessionValid, getSessionDiff),
  - `tabs.js` (getTabsetWinCount, getTabsDiff, getTabsetDiff),
  - `sync_phase_handler.js` (SyncPhaseHandler: initHandler / doStep /
    changeDone / finalize),
  - `tabber.js` (getWindowScore_, the window-map sort + greedy acceptance of
    syncBrowserChromeMapWindows_, setOptions, saveLocalToRemote_).

Modelling conventions:
  - JS numbers that the program uses as integers are modelled as `Int`
    (tab ids, window ids, indexes, generations, timestamps) or as `Nat`
    where the source value is a length or count.
  - The flat key/value record used with chrome.storage.sync is modelled as
    an association list `List (PKey × SVal)`.  Property-name strings are
    embedded as the inductive `PKey`: the string "Tab_<n>" is `PKey.tabKey n`
    (the source recognizes these keys with startsWith and parseInt), the five
    fixed own properties of a session get their own constructors, and every
    other string key is `PKey.other s`.  Dynamic junk that JS would accept
    (prototype method names satisfying the `in` test, ill-typed values
    assigned to typed slots, sparse array writes past the end of `tabs`)
    is not representable in the typed model and is noted at each spot; no
    claim below exercises it.
  - A session's `updateTime` is `number | false` in the source
    (`false` until first touch), embedded as `JsTime`.
-/

/-- A browser tab as tracked by the program (url, index, id, windowId,
active, title). -/
structure Tab where
  url : String
  index : Int
  id : Int
  windowId : Int
  active : Bool
  title : String
deriving DecidableEq

/-- The `updateTime` slot of a session: a numeric timestamp, or the JS
value `false` for a never-touched session. -/
inductive JsTime where
  | num (t : Int)
  | fv
deriving DecidableEq

/-- Numeric coercion JS applies to `updateTime` in arithmetic contexts
(`Math.max`, loose comparison): `false` coerces to 0. -/
def JsTime.toNum : JsTime → Int
  | .num t => t
  | .fv => 0

/-- A TabberSession: the five own data properties set by the constructor
(description, generation, tabs, numtabs, updateTime).  `numtabs` is stored
separately from `tabs.length`, exactly as in the source. -/
structure Session where
  description : String
  generation : Int
  numtabs : Int
  updateTime : JsTime
  tabs : List Tab
deriving DecidableEq

/-- `new TabberSession()` with no argument: description 'default',
generation -1, no tabs, numtabs 0, updateTime false. -/
def newSession : Session :=
  { description := "default", generation := -1, numtabs := 0,
    updateTime := .fv, tabs := [] }

/-- `new TabberSession(g)` with an initial generation number. -/
def newSessionGen (g : Int) : Session :=
  { description := "default", generation := g, numtabs := 0,
    updateTime := .fv, tabs := [] }

/-- A value stored under one key of the flat sync record. -/
inductive SVal where
  | str (v : String)
  | num (v : Int)
  | boo (v : Bool)
  | time (v : JsTime)
  | tab (v : Tab)
deriving DecidableEq

/-- A property key of the flat sync record.  "Tab_<n>" is `tabKey n`; the
five fixed session properties have their own constructors; any other
string key is `other s`. -/
inductive PKey where
  | description
  | generation
  | numtabs
  | updateTime
  | tabs
  | tabKey (n : Nat)
  | other (name : String)
deriving DecidableEq, BEq

/-- `isPropertyValid(prop)` from tabber_session.js: empty or unknown keys
are rejected, "Tab_<n>" keys are accepted, the key 'tabs' is rejected,
and the own properties of a freshly constructed session are accepted.
(The source's `prop in sess` test would also accept prototype method
names; those are string keys modelled as `other` here and no caller in
the repository passes them.) -/
def isPropertyValid (prop : PKey) : Bool :=
  match prop with
  | .tabKey _ => true
  | .tabs => false
  | .description => true
  | .generation => true
  | .numtabs => true
  | .updateTime => true
  | .other _ => false

/-- End index of `arr.slice(0, v)` in JS: a negative `v` counts back from
the end of the array (clamped at 0). -/
def jsSliceEnd (len : Nat) (v : Int) : Nat :=
  if 0 ≤ v then v.toNat else ((len : Int) + v).toNat

/-- `TabberSession.prototype.update(key, value)`: validate the key, reject
stale "Tab_<n>" keys (n at or beyond numtabs), otherwise store the value;
an accepted 'numtabs' value smaller than the current tab count truncates
`tabs` with `slice(0, value)`.  Returns (accepted, updated session).
Assignments of an ill-typed value to a typed slot (which JS would accept
verbatim) leave the field unchanged here; the update still reports true
exactly as the source does. -/
def Session.update (s : Session) (key : PKey) (value : SVal) :
    Bool × Session :=
  if isPropertyValid key = false then (false, s)
  else
    match key, value with
    | .tabKey t, .tab tb =>
        if s.numtabs ≤ (t : Int) then (false, s)
        else (true, { s with tabs := s.tabs.set t tb })
    | .tabKey t, _ =>
        if s.numtabs ≤ (t : Int) then (false, s) else (true, s)
    | .description, .str v => (true, { s with description := v })
    | .generation, .num v => (true, { s with generation := v })
    | .updateTime, .time v => (true, { s with updateTime := v })
    | .updateTime, .num v => (true, { s with updateTime := .num v })
    | .numtabs, .num v =>
        if v < (s.tabs.length : Int) then
          (true, { s with numtabs := v,
                          tabs := s.tabs.take (jsSliceEnd s.tabs.length v) })
        else (true, { s with numtabs := v })
    | _, _ => (true, s)

/-- The keys "Tab_0", "Tab_1", ... paired with the tabs of a session, in
order, starting from position `k`: the tab-emitting loop of `toSync`. -/
def tabEntries (k : Nat) (l : List Tab) : List (PKey × SVal) :=
  match l with
  | [] => []
  | tb :: rest => (PKey.tabKey k, SVal.tab tb) :: tabEntries (k + 1) rest

/-- `TabberSession.prototype.toSync()`: every own property except `tabs`
under its own key (in the constructor's insertion order), with the
`numtabs` entry overwritten by `tabs.length`, followed by one "Tab_<i>"
entry per tab. -/
def Session.toSync (s : Session) : List (PKey × SVal) :=
  [(PKey.description, SVal.str s.description),
   (PKey.generation, SVal.num s.generation),
   (PKey.numtabs, SVal.num (s.tabs.length : Int)),
   (PKey.updateTime, SVal.time s.updateTime)]
  ++ tabEntries 0 s.tabs

/-- One iteration of the `fromSync` loop: a "Tab_<n>" entry pushes its tab
onto `tabs`; any other recognized key stores its value in the session. -/
def fromSyncStep (acc : Session) (kv : PKey × SVal) : Session :=
  match kv with
  | (.tabKey _, .tab tb) => { acc with tabs := acc.tabs ++ [tb] }
  | (.tabKey _, _) => acc
  | (.description, .str v) => { acc with description := v }
  | (.generation, .num v) => { acc with generation := v }
  | (.numtabs, .num v) => { acc with numtabs := v }
  | (.updateTime, .time v) => { acc with updateTime := v }
  | (.updateTime, .num v) => { acc with updateTime := .num v }
  | _ => acc

/-- `TabberSession.prototype.fromSync(syncObj)`: fold the record into the
session, then force `numtabs` to the final tab count. -/
def Session.fromSync (s : Session) (syncObj : List (PKey × SVal)) :
    Session :=
  let s1 := syncObj.foldl fromSyncStep s
  { s1 with numtabs := (s1.tabs.length : Int) }

/-- `isSessionValid(sess)` from tabber_session.js.  The typeof checks on
`description` and `generation` are vacuous in the typed model; the
`updateTime` number check, the non-empty-tabs check and the per-tab
index/url/id checks remain. -/
def isSessionValid (sess : Session) : Bool :=
  (match sess.updateTime with | .num _ => true | .fv => false) &&
  decide (1 ≤ sess.tabs.length) &&
  sess.tabs.all (fun t => decide (0 ≤ t.index) && decide (0 ≤ t.id))

/-- The diff report `{major, minor, err}` shared by the three comparison
levels. -/
structure TabDiff where
  major : String
  minor : String
  err : Bool
deriving DecidableEq

/-- The empty diff every comparison starts from. -/
def emptyDiff : TabDiff := { major := "", minor := "", err := false }

/-- `getTabsetWinCount(tabs)` from tabs.js: the number of distinct
windowIds among the tabs. -/
def getTabsetWinCount (tabs : List Tab) : Nat :=
  (tabs.map (fun t => t.windowId)).dedup.length

/-- `getTabsDiff(tab1, tab2)` from tabs.js: major on a url mismatch,
else minor on an active-state mismatch, else empty. -/
def getTabsDiff (tab1 tab2 : Tab) : TabDiff :=
  if tab1.url ≠ tab2.url then
    { major := "different URLs", minor := "", err := false }
  else if tab1.active ≠ tab2.active then
    { major := "", minor := "a different active tab.", err := false }
  else emptyDiff

/-- The position-by-position loop at the end of `getTabsetDiff`: return
the first major tab diff, else accumulate the first minor one.  (The
source loop indexes both arrays by the same counter; it only runs once
the lengths are known to be equal.) -/
def tabsetScanLoop : List Tab → List Tab → TabDiff → TabDiff
  | t1 :: r1, t2 :: r2, dif =>
      let d := getTabsDiff t1 t2
      if d.major ≠ "" then d
      else if d.minor ≠ "" ∧ dif.minor = "" then
        tabsetScanLoop r1 r2 { dif with minor := d.minor }
      else tabsetScanLoop r1 r2 dif
  | _, _, dif => dif

/-- `getTabsetDiff(tabs1, tabs2)` from tabs.js: major on a tab-count
mismatch (count difference plus ' fewer tabs' / ' more tabs'), else major
on a window-count mismatch, else scan position by position. -/
def getTabsetDiff (tabs1 tabs2 : List Tab) : TabDiff :=
  if tabs1.length ≠ tabs2.length then
    if tabs2.length < tabs1.length then
      { major := toString (tabs1.length - tabs2.length) ++ " fewer tabs",
        minor := "", err := false }
    else
      { major := toString (tabs2.length - tabs1.length) ++ " more tabs",
        minor := "", err := false }
  else
    let wincnt1 := getTabsetWinCount tabs1
    let wincnt2 := getTabsetWinCount tabs2
    if wincnt1 ≠ wincnt2 then
      if wincnt2 < wincnt1 then
        { major := toString (wincnt1 - wincnt2) ++ " fewer windows",
          minor := "", err := false }
      else
        { major := toString (wincnt2 - wincnt1) ++ " more windows",
          minor := "", err := false }
    else tabsetScanLoop tabs1 tabs2 emptyDiff

/-- `getSessionDiff(loc, rem)` from tabber_session.js.  The source mutates
its two session arguments; the embedding returns the diff together with
the updated local and remote sessions.  The loose inequality
`loc.updateTime != rem.updateTime` of the silent-reconcile path compares
the numeric coercions (JS `false == 0`). -/
def getSessionDiff (loc rem : Session) : TabDiff × Session × Session :=
  if loc.generation < 0 then
    ({ major := "Local browser not initialized yet", minor := "",
       err := true }, loc, rem)
  else if loc.tabs.length < 1 then
    ({ major := "No browser tabs found", minor := "", err := true },
     { loc with generation := -1 }, rem)
  else if rem.generation < 0 then
    ({ major := "No saved session found", minor := "", err := true },
     loc, rem)
  else if rem.tabs.length < 1 then
    ({ major := "No saved tabs found", minor := "", err := false },
     loc, { rem with generation := -1 })
  else
    let tabDiff := getTabsetDiff loc.tabs rem.tabs
    let result : TabDiff :=
      if tabDiff.major ≠ "" then
        { major := "Saved session has " ++ tabDiff.major, minor := "",
          err := false }
      else if tabDiff.minor ≠ "" then
        { major := "", minor := "Saved session has " ++ tabDiff.minor,
          err := false }
      else emptyDiff
    if result.major ≠ "" ∨ result.minor ≠ "" then
      if loc.generation = rem.generation then
        (result, { loc with generation := loc.generation + 1 }, rem)
      else (result, loc, rem)
    else
      let loc1 :=
        if loc.generation ≠ rem.generation then
          { loc with generation := rem.generation }
        else loc
      if loc1.updateTime.toNum ≠ rem.updateTime.toNum then
        let m := max loc1.updateTime.toNum rem.updateTime.toNum
        (result, { loc1 with updateTime := .num m },
         { rem with updateTime := .num m })
      else (result, loc1, rem)

/-! ## Phase Sequencer (sync_phase_handler.js)

The module-level mutable variables `change_count_` and `pending_changes`
together with the number of invocations of the stored completion callback
form the state.  `fired` counts how many times `completionCallback()` has
been invoked.  (The one-shot `stepCallback` does not influence when the
completion callback fires and is not part of the barrier property.) -/

/-- State of the SyncPhaseHandler: the pending-step counter, the
"more steps may still arrive" flag, and the number of times the
completion callback has been invoked so far. -/
structure PhaseState where
  change_count : Nat
  pending_changes : Bool
  fired : Nat
deriving DecidableEq

/-- `initHandler(callback)`: counter 0, pending flag armed, no completion
fired yet. -/
def initHandler : PhaseState :=
  { change_count := 0, pending_changes := true, fired := 0 }

/-- `doStep(...)`: increment the pending counter (the submitted chrome
call itself is external; its completion is a separate event). -/
def doStepFn (s : PhaseState) : PhaseState :=
  { s with change_count := s.change_count + 1 }

/-- `changeDone(...)`: decrement the counter (never below 0), and invoke
the completion callback iff the counter is now 0 and no more changes are
pending. -/
def changeDone (s : PhaseState) : PhaseState :=
  let c := if 0 < s.change_count then s.change_count - 1 else s.change_count
  if c = 0 ∧ s.pending_changes = false then
    { change_count := c, pending_changes := s.pending_changes,
      fired := s.fired + 1 }
  else
    { s with change_count := c }

/-- `finalize()`: clear the pending flag; if the counter is already 0,
run `changeDone` immediately. -/
def finalizeFn (s : PhaseState) : PhaseState :=
  let s1 := { s with pending_changes := false }
  if s1.change_count = 0 then changeDone s1 else s1

/-- Observable events of one phase: a `doStep` submission, a chrome
completion (which invokes `changeDone`), and the single `finalize` call. -/
inductive PhaseEvent where
  | step
  | comp
  | fin
deriving DecidableEq

/-- Apply one event to the sequencer state. -/
def applyEvent (s : PhaseState) : PhaseEvent → PhaseState
  | .step => doStepFn s
  | .comp => changeDone s
  | .fin => finalizeFn s

/-- Run a trace of events from a fresh `initHandler` state. -/
def runPhase (tr : List PhaseEvent) : PhaseState :=
  tr.foldl applyEvent initHandler

/-- Number of `doStep` submissions in a trace. -/
def nSteps : List PhaseEvent → Nat
  | [] => 0
  | .step :: tr => nSteps tr + 1
  | _ :: tr => nSteps tr

/-- Number of completions in a trace. -/
def nComps : List PhaseEvent → Nat
  | [] => 0
  | .comp :: tr => nComps tr + 1
  | _ :: tr => nComps tr

/-- Number of `finalize` calls in a trace. -/
def nFins : List PhaseEvent → Nat
  | [] => 0
  | .fin :: tr => nFins tr + 1
  | _ :: tr => nFins tr

/-- The traces the Phase Sequencer contract quantifies over: after
`initHandler`, exactly `N` submissions, each of whose operations completes
exactly once (a completion never precedes its submission, so every prefix
has at most as many completions as submissions), and one `finalize` call
placed after all `N` submissions.  Completions interleave arbitrarily
with submissions and with `finalize`. -/
def ValidTrace (N : Nat) (tr : List PhaseEvent) : Prop :=
  nSteps tr = N ∧ nComps tr = N ∧ nFins tr = 1 ∧
  ∀ n, n < tr.length + 1 →
    (nComps (tr.take n) ≤ nSteps (tr.take n) ∧
     (nFins (tr.take n) = 1 → nSteps (tr.take n) = N))

instance (N : Nat) (tr : List PhaseEvent) : Decidable (ValidTrace N tr) := by
  unfold ValidTrace
  infer_instance

/-! ## Reconciliation Controller pieces (tabber.js) -/

/-- The slice of a `setOptions` config the controller reads: an optional
mode string and an optional debug flag. -/
structure TabberConfig where
  mode : Option String
  debug : Option Bool
deriving DecidableEq

/-- The controller state `setOptions` can touch: the stored operating mode
(`options_.mode`) and the global `debug` flag. -/
structure TabberCtrlState where
  options_mode : String
  debug : Bool
deriving DecidableEq

/-- `TabberClass.prototype.setOptions(config)`.  The second component
lists the writes issued to the Local Config Store
(`chrome.storage.local.set({options: ...})`), each recorded as the mode
string persisted.  An unrecognized mode only raises an alert; the debug
key of the same config is still processed afterwards. -/
def setOptions (st : TabberCtrlState) (config : TabberConfig) :
    TabberCtrlState × List String :=
  let step1 :=
    match config.mode with
    | some m =>
        if m = "autosync" ∨ m = "autostart" ∨ m = "autosave" ∨ m = "manual"
        then ({ st with options_mode := m }, [m])
        else (st, [])
    | none => (st, [])
  let st2 :=
    match config.debug with
    | some d => { step1.1 with debug := d }
    | none => step1.1
  (st2, step1.2)

/-- `TabberClass.prototype.saveLocalToRemote_()`: force the local
generation strictly past the remote one, then serialize with `toSync`.
Returns the updated local session and the record pushed to
`chrome.storage.sync.set`. -/
def saveLocalToRemote (loc rem : Session) : Session × List (PKey × SVal) :=
  let loc1 :=
    if loc.generation ≤ rem.generation then
      { loc with generation := rem.generation + 1 }
    else loc
  (loc1, loc1.toSync)

/-! ## Window Affinity Matcher (tabber.js) -/

/-- `getWindowScore_(tabs1, tabs2)`: for every pair of tabs with equal
url award 5 points, 3 more on an equal index, 1 more on an equal active
state. -/
def getWindowScore (tabs1 tabs2 : List Tab) : Nat :=
  tabs1.foldl
    (fun score t1 =>
      tabs2.foldl
        (fun sc t2 =>
          if t1.url = t2.url then
            let sc5 := sc + 5
            let sc8 := if t1.index = t2.index then sc5 + 3 else sc5
            if t1.active = t2.active then sc8 + 1 else sc8
          else sc)
        score)
    0

/-- The affinity score as the spec words it: the sum over all ordered
pairs (t1 from tabs1, t2 from tabs2) with equal url of 5 points, plus 3
on an equal index, plus 1 on an equal active flag; unequal-url pairs
contribute 0.  Stated from the spec for comparison with
`getWindowScore`. -/
def windowScoreSpec (tabs1 tabs2 : List Tab) : Nat :=
  (tabs1.map (fun t1 =>
    (tabs2.map (fun t2 =>
      if t1.url = t2.url then
        5 + (if t1.index = t2.index then 3 else 0) +
            (if t1.active = t2.active then 1 else 0)
      else 0)).sum)).sum

/-- One scored candidate pairing of a local window grouping (`lwid`) with
a remote window grouping (`rwid`), as pushed onto `mapScores`. -/
structure MapEdge where
  lwid : Nat
  rwid : Nat
  score : Nat
deriving DecidableEq

/-- Descending insertion used to model the `mapScores.sort` call, whose
comparator orders strictly higher scores first (ties keep an unspecified
stable order). -/
def insertEdgeDesc (e : MapEdge) : List MapEdge → List MapEdge
  | [] => [e]
  | x :: xs => if x.score < e.score then e :: x :: xs else x :: insertEdgeDesc e xs

/-- The sorted score list `sortedMapScores`: a permutation of the input
ordered by descending score, the postcondition of the source's
`Array.sort` with its score comparator. -/
def sortEdgesDesc : List MapEdge → List MapEdge
  | [] => []
  | e :: es => insertEdgeDesc e (sortEdgesDesc es)

/-- State of the greedy acceptance loop: `matchedRemIds`, `matchedLocIds`
and the accepted pairs (the entries written into `locIdByRemId`, kept in
acceptance order). -/
structure GreedyState where
  matchedRemIds : List Nat
  matchedLocIds : List Nat
  accepted : List MapEdge
deriving DecidableEq

/-- One iteration of the greedy loop: accept the pairing iff neither its
remote id nor its local id has been matched already (both `indexOf`
calls return -1). -/
def greedyStep (st : GreedyState) (e : MapEdge) : GreedyState :=
  if e.rwid ∉ st.matchedRemIds ∧ e.lwid ∉ st.matchedLocIds then
    { matchedRemIds := st.matchedRemIds ++ [e.rwid],
      matchedLocIds := st.matchedLocIds ++ [e.lwid],
      accepted := st.accepted ++ [e] }
  else st

/-- The full greedy acceptance pass over a (sorted) score list, with
empty matched sets to begin with. -/
def greedyAccept (edges : List MapEdge) : List MapEdge :=
  (edges.foldl greedyStep
    { matchedRemIds := [], matchedLocIds := [], accepted := [] }).accepted

/-- The mapping phase of `syncBrowserChromeMapWindows_` on a list of
scored pairings: sort by descending score, then greedily accept. -/
def mapWindowsGreedy (mapScores : List MapEdge) : List MapEdge :=
  greedyAccept (sortEdgesDesc mapScores)

/-- Sample tab A for concrete scenarios (url "a", index 0, id 1,
windowId 1, active, title "A"). -/
def tabA : Tab := { url := "a", index := 0, id := 1, windowId := 1,
                    active := true, title := "A" }

/-- Sample tab B for concrete scenarios. -/
def tabB : Tab := { url := "b", index := 1, id := 2, windowId := 1,
                    active := false, title := "B" }

/-- Sample tab C for concrete scenarios. -/
def tabC : Tab := { url := "c", index := 2, id := 3, windowId := 1,
                    active := false, title := "C" }

/-! ## Helper lemmas -/

/-- The session-diff messages prefixed with 'Saved session has ' are
never the empty string. -/
theorem saved_prefix_ne_empty (x : String) :
    ("Saved session has " ++ x) ≠ "" := by
  intro h
  have h2 := congrArg String.length h
  rw [String.length_append] at h2
  simp at h2
  exact absurd h2.1 (by decide)

/-- The four initialization guards of `getSessionDiff` rewritten away:
with both sessions initialized and non-empty, the function reports the
tabset diff (with tie-break) or silently reconciles. -/
theorem getSessionDiff_main (loc rem : Session)
    (h1 : ¬ loc.generation < 0) (h2 : ¬ loc.tabs.length < 1)
    (h3 : ¬ rem.generation < 0) (h4 : ¬ rem.tabs.length < 1) :
    getSessionDiff loc rem =
      (let tabDiff := getTabsetDiff loc.tabs rem.tabs
       let result : TabDiff :=
         if tabDiff.major ≠ "" then
           { major := "Saved session has " ++ tabDiff.major, minor := "",
             err := false }
         else if tabDiff.minor ≠ "" then
           { major := "", minor := "Saved session has " ++ tabDiff.minor,
             err := false }
         else emptyDiff
       if result.major ≠ "" ∨ result.minor ≠ "" then
         if loc.generation = rem.generation then
           (result, { loc with generation := loc.generation + 1 }, rem)
         else (result, loc, rem)
       else
         let loc1 :=
           if loc.generation ≠ rem.generation then
             { loc with generation := rem.generation }
           else loc
         if loc1.updateTime.toNum ≠ rem.updateTime.toNum then
           let m := max loc1.updateTime.toNum rem.updateTime.toNum
           (result, { loc1 with updateTime := .num m },
            { rem with updateTime := .num m })
         else (result, loc1, rem)) := by
  simp only [getSessionDiff, if_neg h1, if_neg h2, if_neg h3, if_neg h4]

/-- When the tabset comparison finds a major difference, `getSessionDiff`
reports it with the 'Saved session has ' prefix and bumps the local
generation exactly on a tie. -/
theorem getSessionDiff_major_case (loc rem : Session)
    (h1 : ¬ loc.generation < 0) (h2 : ¬ loc.tabs.length < 1)
    (h3 : ¬ rem.generation < 0) (h4 : ¬ rem.tabs.length < 1)
    (hM : (getTabsetDiff loc.tabs rem.tabs).major ≠ "") :
    getSessionDiff loc rem =
      ({ major := "Saved session has " ++ (getTabsetDiff loc.tabs rem.tabs).major,
         minor := "", err := false },
       (if loc.generation = rem.generation then
          { loc with generation := loc.generation + 1 }
        else loc), rem) := by
  rw [getSessionDiff_main loc rem h1 h2 h3 h4]
  simp only [if_pos hM]
  have hne := saved_prefix_ne_empty (getTabsetDiff loc.tabs rem.tabs).major
  simp only [hne, ne_eq, not_false_eq_true, true_or, if_pos]
  split <;> rfl

/-- When the tabset comparison finds only a minor difference,
`getSessionDiff` reports it as minor and bumps the local generation
exactly on a tie. -/
theorem getSessionDiff_minor_case (loc rem : Session)
    (h1 : ¬ loc.generation < 0) (h2 : ¬ loc.tabs.length < 1)
    (h3 : ¬ rem.generation < 0) (h4 : ¬ rem.tabs.length < 1)
    (hM : (getTabsetDiff loc.tabs rem.tabs).major = "")
    (hm : (getTabsetDiff loc.tabs rem.tabs).minor ≠ "") :
    getSessionDiff loc rem =
      ({ major := "",
         minor := "Saved session has " ++ (getTabsetDiff loc.tabs rem.tabs).minor,
         err := false },
       (if loc.generation = rem.generation then
          { loc with generation := loc.generation + 1 }
        else loc), rem) := by
  rw [getSessionDiff_main loc rem h1 h2 h3 h4]
  have hne := saved_prefix_ne_empty (getTabsetDiff loc.tabs rem.tabs).minor
  simp only [hM, hne, ne_eq, not_true_eq_false, if_false, not_false_eq_true,
    if_true, or_true, if_pos hm]
  split <;> rfl

/-- When the tabset comparison finds no difference, `getSessionDiff`
returns the empty diff. -/
theorem getSessionDiff_nodiff_case (loc rem : Session)
    (h1 : ¬ loc.generation < 0) (h2 : ¬ loc.tabs.length < 1)
    (h3 : ¬ rem.generation < 0) (h4 : ¬ rem.tabs.length < 1)
    (hM : (getTabsetDiff loc.tabs rem.tabs).major = "")
    (hm : (getTabsetDiff loc.tabs rem.tabs).minor = "") :
    (getSessionDiff loc rem).1 = emptyDiff := by
  rw [getSessionDiff_main loc rem h1 h2 h3 h4]
  simp only [hM, hm, ne_eq, not_true_eq_false, if_false, or_self]
  simp only [apply_ite (Prod.fst (α := TabDiff) (β := Session × Session)),
    ite_self]

/-- Folding the "Tab_<i>" entries of a record into a session appends the
carried tabs, in order. -/
theorem fromSync_tabEntries (l : List Tab) : ∀ (k : Nat) (acc : Session),
    List.foldl fromSyncStep acc (tabEntries k l) =
      { acc with tabs := acc.tabs ++ l } := by
  induction l with
  | nil => intro k acc; simp [tabEntries]
  | cons tb rest ih =>
      intro k acc
      simp only [tabEntries, List.foldl_cons]
      rw [ih]
      simp [fromSyncStep]

/-- The inner loop of `getWindowScore` accumulates, over the second tab
list, the per-pair contribution of one fixed tab of the first list. -/
theorem windowScore_inner (t1 : Tab) (l2 : List Tab) : ∀ sc : Nat,
    List.foldl
      (fun sc t2 =>
        if t1.url = t2.url then
          let sc5 := sc + 5
          let sc8 := if t1.index = t2.index then sc5 + 3 else sc5
          if t1.active = t2.active then sc8 + 1 else sc8
        else sc) sc l2
    = sc + (l2.map (fun t2 =>
        if t1.url = t2.url then
          5 + (if t1.index = t2.index then 3 else 0) +
              (if t1.active = t2.active then 1 else 0)
        else 0)).sum := by
  induction l2 with
  | nil => intro sc; simp
  | cons h t ih =>
      intro sc
      simp only [List.foldl_cons, List.map_cons, List.sum_cons]
      rw [ih]
      by_cases e1 : t1.url = h.url <;> by_cases e2 : t1.index = h.index <;>
        by_cases e3 : t1.active = h.active <;> simp [e1, e2, e3] <;> omega

/-- Membership through the descending insertion. -/
theorem mem_insertEdgeDesc {a e : MapEdge} {l : List MapEdge} :
    a ∈ insertEdgeDesc e l ↔ a = e ∨ a ∈ l := by
  induction l with
  | nil => simp [insertEdgeDesc]
  | cons x xs ih =>
      simp only [insertEdgeDesc]
      split
      · simp [List.mem_cons]
      · simp only [List.mem_cons, ih]
        tauto

/-- The sorted score list holds exactly the scored pairings that went in. -/
theorem mem_sortEdgesDesc {a : MapEdge} {l : List MapEdge} :
    a ∈ sortEdgesDesc l ↔ a ∈ l := by
  induction l with
  | nil => simp [sortEdgesDesc]
  | cons x xs ih => simp [sortEdgesDesc, mem_insertEdgeDesc, ih]

/-- Descending insertion preserves descending order. -/
theorem sorted_insertEdgeDesc {e : MapEdge} {l : List MapEdge}
    (h : l.Pairwise (fun a b => b.score ≤ a.score)) :
    (insertEdgeDesc e l).Pairwise (fun a b => b.score ≤ a.score) := by
  induction l with
  | nil => simp [insertEdgeDesc]
  | cons x xs ih =>
      rcases List.pairwise_cons.mp h with ⟨hx, hxs⟩
      simp only [insertEdgeDesc]
      split
      · refine List.pairwise_cons.mpr ⟨?_, h⟩
        intro b hb
        rcases List.mem_cons.mp hb with rfl | hb2
        · omega
        · have := hx b hb2
          omega
      · refine List.pairwise_cons.mpr ⟨?_, ih hxs⟩
        intro b hb
        rcases mem_insertEdgeDesc.mp hb with rfl | hb2
        · omega
        · exact hx b hb2

/-- The modelled sort output is ordered by descending score. -/
theorem sorted_sortEdgesDesc (l : List MapEdge) :
    (sortEdgesDesc l).Pairwise (fun a b => b.score ≤ a.score) := by
  induction l with
  | nil => simp [sortEdgesDesc]
  | cons x xs ih => exact sorted_insertEdgeDesc ih

/-- Invariant of the greedy acceptance loop: if the accepted pairings so
far are pairwise disjoint on both window-id sides and their ids are all
recorded in the matched lists, the loop keeps them pairwise disjoint. -/
theorem greedy_fold_pairwise : ∀ (edges : List MapEdge) (st : GreedyState),
    st.accepted.Pairwise (fun a b => a.lwid ≠ b.lwid ∧ a.rwid ≠ b.rwid) →
    (∀ a ∈ st.accepted,
        a.lwid ∈ st.matchedLocIds ∧ a.rwid ∈ st.matchedRemIds) →
    (List.foldl greedyStep st edges).accepted.Pairwise
      (fun a b => a.lwid ≠ b.lwid ∧ a.rwid ≠ b.rwid) := by
  intro edges
  induction edges with
  | nil => intro st h1 _; simpa using h1
  | cons e es ih =>
      intro st h1 h2
      simp only [List.foldl_cons]
      unfold greedyStep
      split
      case isTrue hcond =>
        apply ih
        · rw [List.pairwise_append]
          refine ⟨h1, by simp, ?_⟩
          intro a ha b hb
          simp only [List.mem_singleton] at hb
          subst hb
          have hmem := h2 a ha
          constructor
          · intro heq
            exact hcond.2 (heq ▸ hmem.1)
          · intro heq
            exact hcond.1 (heq ▸ hmem.2)
        · intro a ha
          simp only [List.mem_append, List.mem_singleton] at ha
          rcases ha with ha | rfl
          · have hmem := h2 a ha
            exact ⟨List.mem_append_left _ hmem.1, List.mem_append_left _ hmem.2⟩
          · exact ⟨List.mem_append_right _ (by simp),
                   List.mem_append_right _ (by simp)⟩
      case isFalse => exact ih st h1 h2

/-- A pairing already accepted stays accepted through the rest of the
greedy loop. -/
theorem greedy_fold_mem : ∀ (edges : List MapEdge) (st : GreedyState)
    (x : MapEdge), x ∈ st.accepted →
    x ∈ (List.foldl greedyStep st edges).accepted := by
  intro edges
  induction edges with
  | nil => intro st x hx; simpa using hx
  | cons e es ih =>
      intro st x hx
      simp only [List.foldl_cons]
      unfold greedyStep
      split
      · exact ih _ x (List.mem_append_left _ hx)
      · exact ih st x hx

/-- The outer loop of `getWindowScore` accumulates the spec sum. -/
theorem windowScore_outer (l2 : List Tab) (l1 : List Tab) : ∀ sc : Nat,
    List.foldl
      (fun score t1 =>
        List.foldl
          (fun sc t2 =>
            if t1.url = t2.url then
              let sc5 := sc + 5
              let sc8 := if t1.index = t2.index then sc5 + 3 else sc5
              if t1.active = t2.active then sc8 + 1 else sc8
            else sc) score l2) sc l1
    = sc + windowScoreSpec l1 l2 := by
  induction l1 with
  | nil => intro sc; simp [windowScoreSpec]
  | cons h t ih =>
      intro sc
      simp only [List.foldl_cons]
      rw [windowScore_inner, ih]
      simp only [windowScoreSpec, List.map_cons, List.sum_cons]
      omega

/-! ## Claim theorems -/

/-- C2 counterexample: the session with numtabs 5 but a single tab meets
every validity condition the claim lists (generation at least 0, numeric
updateTime, non-empty tabs, tab with non-negative index, string url,
non-negative id), yet decoding its encoding does not reproduce it: both
codec directions force numtabs to the tab count, so the decoded session
has numtabs 1. -/
theorem toSync_fromSync_roundtrip_cx :
    0 ≤ (Session.mk "default" 0 5 (JsTime.num 0) [tabA]).generation ∧
    (Session.mk "default" 0 5 (JsTime.num 0) [tabA]).updateTime ≠ JsTime.fv ∧
    (Session.mk "default" 0 5 (JsTime.num 0) [tabA]).tabs ≠ [] ∧
    (∀ tb ∈ (Session.mk "default" 0 5 (JsTime.num 0) [tabA]).tabs,
        0 ≤ tb.index ∧ 0 ≤ tb.id) ∧
    Session.fromSync newSession
        (Session.mk "default" 0 5 (JsTime.num 0) [tabA]).toSync ≠
      Session.mk "default" 0 5 (JsTime.num 0) [tabA] := by
  decide

/-- C2 (amended): for every valid session whose numtabs moreover equals
its tab count, decoding the encoded record from a freshly constructed
empty session reproduces the session exactly — description, generation,
updateTime, numtabs, and the tabs in order. -/
theorem toSync_fromSync_roundtrip_amended (s : Session)
    (hg : 0 ≤ s.generation) (ht : s.updateTime ≠ JsTime.fv)
    (hne : s.tabs ≠ [])
    (htabs : ∀ tb ∈ s.tabs, 0 ≤ tb.index ∧ 0 ≤ tb.id)
    (hn : s.numtabs = (s.tabs.length : Int)) :
    Session.fromSync newSession s.toSync = s := by
  obtain ⟨d, g, n, u, tbs⟩ := s
  simp only at hn
  subst hn
  unfold Session.fromSync Session.toSync
  rw [List.foldl_append]
  have h4 : List.foldl fromSyncStep newSession
      [(PKey.description, SVal.str d), (PKey.generation, SVal.num g),
       (PKey.numtabs, SVal.num (tbs.length : Int)),
       (PKey.updateTime, SVal.time u)] =
      Session.mk d g (tbs.length : Int) u [] := rfl
  simp only at h4 ⊢
  rw [h4, fromSync_tabEntries]
  simp

/-- C2 witness: a concrete valid, consistent session round-trips. -/
theorem toSync_fromSync_roundtrip_amended_witness :
    0 ≤ (Session.mk "default" 1 1 (JsTime.num 5) [tabA]).generation ∧
    (Session.mk "default" 1 1 (JsTime.num 5) [tabA]).updateTime ≠ JsTime.fv ∧
    (Session.mk "default" 1 1 (JsTime.num 5) [tabA]).tabs ≠ [] ∧
    (∀ tb ∈ (Session.mk "default" 1 1 (JsTime.num 5) [tabA]).tabs,
        0 ≤ tb.index ∧ 0 ≤ tb.id) ∧
    (Session.mk "default" 1 1 (JsTime.num 5) [tabA]).numtabs =
      ((Session.mk "default" 1 1 (JsTime.num 5) [tabA]).tabs.length : Int) ∧
    Session.fromSync newSession
        (Session.mk "default" 1 1 (JsTime.num 5) [tabA]).toSync =
      Session.mk "default" 1 1 (JsTime.num 5) [tabA] := by
  refine ⟨by decide, by decide, by decide, by decide, by decide, ?_⟩
  exact toSync_fromSync_roundtrip_amended _ (by decide) (by decide)
    (by decide) (by decide) (by decide)

/-- C3: when two tab sequences have different lengths, `getTabsetDiff`
reports a major difference only (no minor, no err) citing the absolute
length difference, phrased '<count> fewer tabs' when the first sequence
is longer and '<count> more tabs' when it is shorter; in particular a
3-tab local list against a 2-tab remote list yields '1 fewer tabs'. -/
theorem getTabsetDiff_length_mismatch (tabs1 tabs2 : List Tab)
    (h : tabs1.length ≠ tabs2.length) :
    getTabsetDiff tabs1 tabs2 =
      (if tabs2.length < tabs1.length then
         { major := toString (tabs1.length - tabs2.length) ++ " fewer tabs",
           minor := "", err := false }
       else
         { major := toString (tabs2.length - tabs1.length) ++ " more tabs",
           minor := "", err := false }) ∧
    getTabsetDiff [tabA, tabB, tabC] [tabA, tabB] =
      { major := "1 fewer tabs", minor := "", err := false } := by
  refine ⟨?_, by decide⟩
  simp only [getTabsetDiff, if_pos h]

/-- C3 witness: a 1-tab list against an empty list. -/
theorem getTabsetDiff_length_mismatch_witness :
    ([tabA] : List Tab).length ≠ ([] : List Tab).length ∧
    getTabsetDiff [tabA] [] =
      { major := "1 fewer tabs", minor := "", err := false } := by
  refine ⟨by decide, ?_⟩
  have h := getTabsetDiff_length_mismatch [tabA] [] (by decide)
  rw [h.1]
  decide

/-- C4 counterexample: a session with generation 0 and no tabs satisfies
the claim's guard (empty tabs), but `getSessionDiff` reports the major
message 'No browser tabs found', not 'Local browser not initialized
yet' as the claim states. -/
theorem getSessionDiff_uninit_local_cx :
    (Session.mk "default" 0 0 JsTime.fv []).tabs = [] ∧
    (getSessionDiff (Session.mk "default" 0 0 JsTime.fv [])
        newSession).1.major ≠ "Local browser not initialized yet" := by
  decide

/-- C4 (amended): with an uninitialized local generation,
`getSessionDiff` returns major 'Local browser not initialized yet' with
err and touches nothing; with an initialized generation but empty local
tabs it returns major 'No browser tabs found' with err and resets only
local.generation to -1. -/
theorem getSessionDiff_uninit_local_amended (loc rem : Session)
    (h : loc.generation < 0 ∨ loc.tabs = []) :
    getSessionDiff loc rem =
      if loc.generation < 0 then
        ({ major := "Local browser not initialized yet", minor := "",
           err := true }, loc, rem)
      else
        ({ major := "No browser tabs found", minor := "", err := true },
         { loc with generation := -1 }, rem) := by
  by_cases h1 : loc.generation < 0
  · rw [if_pos h1]
    simp only [getSessionDiff, if_pos h1]
  · rw [if_neg h1]
    have h2 : loc.tabs = [] := h.resolve_left h1
    have h2l : loc.tabs.length < 1 := by simp [h2]
    simp only [getSessionDiff, if_neg h1, if_pos h2l]

/-- C4 witness: concrete empty-tabs local session. -/
theorem getSessionDiff_uninit_local_amended_witness :
    ((Session.mk "default" 0 0 JsTime.fv []).generation < 0 ∨
      (Session.mk "default" 0 0 JsTime.fv []).tabs = []) ∧
    getSessionDiff (Session.mk "default" 0 0 JsTime.fv []) newSession =
      ({ major := "No browser tabs found", minor := "", err := true },
       Session.mk "default" (-1) 0 JsTime.fv [], newSession) := by
  refine ⟨Or.inr rfl, ?_⟩
  rw [getSessionDiff_uninit_local_amended _ _ (Or.inr rfl)]
  decide

/-- C5: the window-mapping phase accepts a one-to-one mapping — no local
window grouping and no remote window grouping appears in more than one
accepted pairing — and whenever one pairing has a strictly higher score
than every other, that pairing is accepted. -/
theorem mapWindows_greedy_matching (mapScores : List MapEdge) :
    (mapWindowsGreedy mapScores).Pairwise
      (fun a b => a.lwid ≠ b.lwid ∧ a.rwid ≠ b.rwid) ∧
    ∀ e ∈ mapScores,
      (∀ e2 ∈ mapScores, e2 ≠ e → e2.score < e.score) →
      e ∈ mapWindowsGreedy mapScores := by
  constructor
  · exact greedy_fold_pairwise _ _ (by simp) (by simp)
  · intro e he hmax
    unfold mapWindowsGreedy greedyAccept
    rcases hsd : sortEdgesDesc mapScores with _ | ⟨hd, tl⟩
    · exfalso
      have hm : e ∈ sortEdgesDesc mapScores := mem_sortEdgesDesc.mpr he
      rw [hsd] at hm
      exact absurd hm (List.not_mem_nil e)
    · have hsort := sorted_sortEdgesDesc mapScores
      rw [hsd] at hsort
      have hdm : hd ∈ mapScores := by
        have hmem : hd ∈ sortEdgesDesc mapScores := by
          rw [hsd]; exact List.mem_cons_self hd tl
        exact mem_sortEdgesDesc.mp hmem
      have hde : hd = e := by
        by_contra hneq
        have hlt : hd.score < e.score := hmax hd hdm hneq
        have hem : e ∈ hd :: tl := by
          rw [← hsd]; exact mem_sortEdgesDesc.mpr he
        rcases List.mem_cons.mp hem with rfl | het
        · exact hneq rfl
        · have hle : e.score ≤ hd.score :=
            (List.pairwise_cons.mp hsort).1 e het
          omega
      subst hde
      simp only [List.foldl_cons]
      have hstep :
          greedyStep
            { matchedRemIds := [], matchedLocIds := [], accepted := [] } hd =
          { matchedRemIds := [hd.rwid], matchedLocIds := [hd.lwid],
            accepted := [hd] } := by
        simp [greedyStep]
      rw [hstep]
      exact greedy_fold_mem tl _ hd (by simp)

/-- C5 witness: a 2-by-2 grid of scored pairings with a unique maximum. -/
theorem mapWindows_greedy_matching_witness :
    (MapEdge.mk 1 1 10 ∈
      ([MapEdge.mk 1 1 10, MapEdge.mk 1 2 7, MapEdge.mk 2 1 7,
        MapEdge.mk 2 2 3] : List MapEdge)) ∧
    (∀ e2 ∈ ([MapEdge.mk 1 1 10, MapEdge.mk 1 2 7, MapEdge.mk 2 1 7,
        MapEdge.mk 2 2 3] : List MapEdge),
      e2 ≠ MapEdge.mk 1 1 10 → e2.score < (MapEdge.mk 1 1 10).score) ∧
    MapEdge.mk 1 1 10 ∈
      mapWindowsGreedy [MapEdge.mk 1 1 10, MapEdge.mk 1 2 7,
        MapEdge.mk 2 1 7, MapEdge.mk 2 2 3] := by
  refine ⟨by decide, by decide, ?_⟩
  exact (mapWindows_greedy_matching _).2 _ (by decide) (by decide)

/-- C6: `getWindowScore_` computes exactly the sum, over all ordered
pairs of tabs drawn from the two groupings, of 5 points for an equal
url, 3 more for an additionally equal index, and 1 more for an
additionally equal active flag; unequal-url pairs contribute nothing
and no cap is applied. -/
theorem getWindowScore_spec_sum (tabs1 tabs2 : List Tab) :
    getWindowScore tabs1 tabs2 = windowScoreSpec tabs1 tabs2 := by
  unfold getWindowScore
  rw [windowScore_outer]
  exact Nat.zero_add _

/-- C7 counterexample: the value -1 is smaller than the current tab
count 3, and the update is accepted, but the tabs array is truncated by
JS slice semantics to 2 entries, not to 'exactly that length' -1. -/
theorem session_update_numtabs_cx :
    ((-1 : Int) <
      ((Session.mk "d" 1 3 (JsTime.num 0) [tabA, tabB, tabC]).tabs.length :
        Int)) ∧
    (Session.update (Session.mk "d" 1 3 (JsTime.num 0) [tabA, tabB, tabC])
        PKey.numtabs (SVal.num (-1))).1 = true ∧
    ¬(((Session.update (Session.mk "d" 1 3 (JsTime.num 0)
          [tabA, tabB, tabC]) PKey.numtabs
          (SVal.num (-1))).2.tabs.length : Int) = -1) := by
  decide

/-- C7 (amended): a Tab_<n> update with n at or beyond numtabs is
rejected and changes nothing; a numtabs update with a non-negative value
smaller than the current tab count is accepted, stores the value, and
truncates tabs to exactly that length; the key 'tabs' itself is always
rejected. -/
theorem session_update_amended (s : Session) :
    (∀ (n : Nat) (v : SVal), s.numtabs ≤ (n : Int) →
        Session.update s (PKey.tabKey n) v = (false, s)) ∧
    (∀ v : Int, 0 ≤ v → v < (s.tabs.length : Int) →
        Session.update s PKey.numtabs (SVal.num v) =
          (true, { s with numtabs := v, tabs := s.tabs.take v.toNat }) ∧
        ((Session.update s PKey.numtabs (SVal.num v)).2.tabs.length :
          Int) = v) ∧
    (∀ v : SVal, Session.update s PKey.tabs v = (false, s)) := by
  refine ⟨?_, ?_, ?_⟩
  · intro n v hn
    cases v <;> simp [Session.update, isPropertyValid, hn]
  · intro v h0 hv
    have hslice : jsSliceEnd s.tabs.length v = v.toNat := by
      simp [jsSliceEnd, h0]
    have hEq : Session.update s PKey.numtabs (SVal.num v) =
        (true, { s with numtabs := v, tabs := s.tabs.take v.toNat }) := by
      simp [Session.update, isPropertyValid, hv, hslice]
    refine ⟨hEq, ?_⟩
    rw [hEq]
    simp only [List.length_take]
    omega
  · intro v
    simp [Session.update, isPropertyValid]

/-- C7 witness: a stale Tab_5 update is rejected; numtabs 1 truncates a
3-tab array to one tab; the 'tabs' key is rejected. -/
theorem session_update_amended_witness :
    (Session.mk "d" 1 2 (JsTime.num 0) [tabA, tabB, tabC]).numtabs ≤
      ((5 : Nat) : Int) ∧
    Session.update (Session.mk "d" 1 2 (JsTime.num 0) [tabA, tabB, tabC])
        (PKey.tabKey 5) (SVal.num 7) =
      (false, Session.mk "d" 1 2 (JsTime.num 0) [tabA, tabB, tabC]) ∧
    (0 ≤ (1 : Int) ∧ (1 : Int) <
      ((Session.mk "d" 1 2 (JsTime.num 0)
          [tabA, tabB, tabC]).tabs.length : Int)) ∧
    Session.update (Session.mk "d" 1 2 (JsTime.num 0) [tabA, tabB, tabC])
        PKey.numtabs (SVal.num 1) =
      (true, { Session.mk "d" 1 2 (JsTime.num 0) [tabA, tabB, tabC] with
               numtabs := 1,
               tabs := (Session.mk "d" 1 2 (JsTime.num 0)
                 [tabA, tabB, tabC]).tabs.take (1 : Int).toNat }) ∧
    Session.update (Session.mk "d" 1 2 (JsTime.num 0) [tabA, tabB, tabC])
        PKey.tabs (SVal.num 0) =
      (false, Session.mk "d" 1 2 (JsTime.num 0) [tabA, tabB, tabC]) := by
  refine ⟨by decide,
    (session_update_amended _).1 5 (SVal.num 7) (by decide),
    ⟨by decide, by decide⟩,
    ((session_update_amended _).2.1 1 (by decide) (by decide)).1,
    (session_update_amended _).2.2 (SVal.num 0)⟩

/-- C8 counterexample: a config carrying both an unsupported mode and a
debug value is not rejected without state mutation — the debug flag is
still applied. -/
theorem setOptions_invalid_mode_cx :
    ¬("bogus" = "autosync" ∨ "bogus" = "autostart" ∨
      "bogus" = "autosave" ∨ "bogus" = "manual") ∧
    (setOptions (TabberCtrlState.mk "manual" false)
        (TabberConfig.mk (some "bogus") (some true))).1.debug ≠
      (TabberCtrlState.mk "manual" false).debug := by
  decide

/-- C8 (amended): a `setOptions` call with an unsupported mode leaves the
stored mode unchanged and persists nothing to the Local Config Store;
a debug value carried in the same config is still applied, and only when
the config has no debug key is the controller state entirely
unchanged. -/
theorem setOptions_invalid_mode_amended (st : TabberCtrlState)
    (config : TabberConfig) (m : String) (hm : config.mode = some m)
    (hbad : ¬(m = "autosync" ∨ m = "autostart" ∨ m = "autosave" ∨
              m = "manual")) :
    (setOptions st config).1.options_mode = st.options_mode ∧
    (setOptions st config).2 = [] ∧
    (config.debug = none → (setOptions st config).1 = st) ∧
    (∀ d, config.debug = some d →
        (setOptions st config).1 = { st with debug := d }) := by
  cases hd : config.debug with
  | none =>
      refine ⟨?_, ?_, fun _ => ?_, fun d hdd => ?_⟩ <;>
        simp_all [setOptions, hm, hbad]
  | some d0 =>
      refine ⟨?_, ?_, fun hc => ?_, fun d hdd => ?_⟩ <;>
        simp_all [setOptions, hm, hbad]

/-- C8 witness: an unsupported mode with no debug key changes nothing. -/
theorem setOptions_invalid_mode_amended_witness :
    (TabberConfig.mk (some "weird") none).mode = some "weird" ∧
    ¬("weird" = "autosync" ∨ "weird" = "autostart" ∨
      "weird" = "autosave" ∨ "weird" = "manual") ∧
    (setOptions (TabberCtrlState.mk "manual" true)
        (TabberConfig.mk (some "weird") none)).1 =
      TabberCtrlState.mk "manual" true := by
  refine ⟨rfl, by decide, ?_⟩
  exact (setOptions_invalid_mode_amended _ _ "weird" rfl (by decide)).2.2.1 rfl

/-- C9: past the four initialization guards, when `getSessionDiff`
reports a major or minor difference, the local generation is bumped by
exactly 1 iff it tied the remote generation beforehand, and the remote
generation is never changed on this path. -/
theorem getSessionDiff_generation_tiebreak (loc rem : Session)
    (h1 : 0 ≤ loc.generation) (h2 : loc.tabs ≠ [])
    (h3 : 0 ≤ rem.generation) (h4 : rem.tabs ≠ [])
    (hdiff : (getSessionDiff loc rem).1.major ≠ "" ∨
             (getSessionDiff loc rem).1.minor ≠ "") :
    (loc.generation = rem.generation →
      (getSessionDiff loc rem).2.1.generation = loc.generation + 1 ∧
      (getSessionDiff loc rem).2.2.generation = rem.generation) ∧
    (loc.generation ≠ rem.generation →
      (getSessionDiff loc rem).2.1.generation = loc.generation ∧
      (getSessionDiff loc rem).2.2.generation = rem.generation) := by
  have g1 : ¬ loc.generation < 0 := by omega
  have g3 : ¬ rem.generation < 0 := by omega
  have g2 : ¬ loc.tabs.length < 1 := by
    have := List.length_pos.mpr h2
    omega
  have g4 : ¬ rem.tabs.length < 1 := by
    have := List.length_pos.mpr h4
    omega
  by_cases hM : (getTabsetDiff loc.tabs rem.tabs).major = ""
  · by_cases hm : (getTabsetDiff loc.tabs rem.tabs).minor = ""
    · exfalso
      have hz := getSessionDiff_nodiff_case loc rem g1 g2 g3 g4 hM hm
      rw [hz] at hdiff
      simp [emptyDiff] at hdiff
    · rw [getSessionDiff_minor_case loc rem g1 g2 g3 g4 hM hm]
      constructor
      · intro htie
        simp [htie]
      · intro hne2
        simp [hne2]
  · rw [getSessionDiff_major_case loc rem g1 g2 g3 g4 hM]
    constructor
    · intro htie
      simp [htie]
    · intro hne2
      simp [hne2]

/-- C9 witness: equal generations 1 and a tab-count difference bump the
local generation to 2. -/
theorem getSessionDiff_generation_tiebreak_witness :
    ((getSessionDiff (Session.mk "d" 1 1 (JsTime.num 0) [tabA])
        (Session.mk "d" 1 2 (JsTime.num 0) [tabA, tabB])).1.major ≠ "") ∧
    (getSessionDiff (Session.mk "d" 1 1 (JsTime.num 0) [tabA])
        (Session.mk "d" 1 2 (JsTime.num 0) [tabA, tabB])).2.1.generation =
      2 := by
  refine ⟨by decide, ?_⟩
  have h := getSessionDiff_generation_tiebreak
    (Session.mk "d" 1 1 (JsTime.num 0) [tabA])
    (Session.mk "d" 1 2 (JsTime.num 0) [tabA, tabB])
    (by decide) (by decide) (by decide) (by decide) (Or.inl (by decide))
  have h2 := (h.1 (by decide)).1
  exact h2.trans (by decide)

/-- C10: before serializing, `saveLocalToRemote_` forces the local
generation strictly past the remote one, so the pushed record's
generation entry carries a value strictly greater than the last known
remote generation. -/
theorem saveLocalToRemote_generation_push (loc rem : Session) :
    rem.generation < (saveLocalToRemote loc rem).1.generation ∧
    List.lookup PKey.generation (saveLocalToRemote loc rem).2 =
      some (SVal.num (saveLocalToRemote loc rem).1.generation) := by
  by_cases h : loc.generation ≤ rem.generation
  · constructor
    · simp only [saveLocalToRemote, if_pos h]
      omega
    · simp only [saveLocalToRemote, if_pos h]
      rfl
  · constructor
    · simp only [saveLocalToRemote, if_neg h]
      omega
    · simp only [saveLocalToRemote, if_neg h]
      rfl

/-- Submission count distributes over trace concatenation. -/
theorem nSteps_append (p q : List PhaseEvent) :
    nSteps (p ++ q) = nSteps p + nSteps q := by
  induction p with
  | nil => simp [nSteps]
  | cons e p ih => cases e <;> simp [nSteps, ih] <;> omega

/-- Completion count distributes over trace concatenation. -/
theorem nComps_append (p q : List PhaseEvent) :
    nComps (p ++ q) = nComps p + nComps q := by
  induction p with
  | nil => simp [nComps]
  | cons e p ih => cases e <;> simp [nComps, ih] <;> omega

/-- Finalize count distributes over trace concatenation. -/
theorem nFins_append (p q : List PhaseEvent) :
    nFins (p ++ q) = nFins p + nFins q := by
  induction p with
  | nil => simp [nFins]
  | cons e p ih => cases e <;> simp [nFins, ih] <;> omega

/-- A take of a list is a take of any extension of it. -/
theorem take_prefix_extend (p q : List PhaseEvent) (n : Nat) :
    p.take n = (p ++ q).take (min n p.length) := by
  rcases le_or_lt n p.length with h | h
  · rw [min_eq_left h, List.take_append_of_le_length h]
  · rw [min_eq_right h.le, List.take_left, List.take_of_length_le h.le]

/-- Running a trace extended by one event applies that event last. -/
theorem runPhase_concat (p : List PhaseEvent) (e : PhaseEvent) :
    runPhase (p ++ [e]) = applyEvent (runPhase p) e := by
  simp [runPhase, List.foldl_append]

/-- `changeDone` on an explicit state, zeta-expanded. -/
theorem changeDone_mk (cc : Nat) (pc : Bool) (fr : Nat) :
    changeDone ⟨cc, pc, fr⟩ =
      if (if 0 < cc then cc - 1 else cc) = 0 ∧ pc = false
      then ⟨if 0 < cc then cc - 1 else cc, pc, fr + 1⟩
      else ⟨if 0 < cc then cc - 1 else cc, pc, fr⟩ := rfl

/-- `finalizeFn` on an explicit state. -/
theorem finalizeFn_mk (cc : Nat) (pc : Bool) (fr : Nat) :
    finalizeFn ⟨cc, pc, fr⟩ =
      if cc = 0 then changeDone ⟨cc, false, fr⟩ else ⟨cc, false, fr⟩ := rfl

/-- State invariant of the Phase Sequencer along any admissible prefix:
the pending counter equals submissions minus completions, the pending
flag tracks whether finalize has been called, and the completion
callback has fired exactly once iff all `N` completions and the finalize
call have occurred, and never otherwise. -/
theorem phase_inv (N : Nat) : ∀ (p : List PhaseEvent),
    (∀ n, nComps (p.take n) ≤ nSteps (p.take n)) →
    nSteps p ≤ N →
    nFins p ≤ 1 →
    (∀ n, nFins (p.take n) = 1 → nSteps (p.take n) = N) →
    (runPhase p).change_count = nSteps p - nComps p ∧
    (runPhase p).pending_changes = decide (nFins p = 0) ∧
    (runPhase p).fired = (if nComps p = N ∧ nFins p = 1 then 1 else 0) := by
  intro p
  induction p using List.reverseRecOn with
  | nil =>
      intro _ _ _ _
      refine ⟨rfl, rfl, ?_⟩
      simp [runPhase, initHandler, nComps, nFins]
  | append_singleton p e ih =>
      intro hc hs hf hfs
      have hc2 : ∀ n, nComps (p.take n) ≤ nSteps (p.take n) := fun n => by
        rw [take_prefix_extend p [e] n]
        exact hc _
      have hfs2 : ∀ n, nFins (p.take n) = 1 → nSteps (p.take n) = N :=
        fun n => by
          rw [take_prefix_extend p [e] n]
          exact hfs _
      have hsapp := nSteps_append p [e]
      have hcapp := nComps_append p [e]
      have hfapp := nFins_append p [e]
      have hcfull : nComps (p ++ [e]) ≤ nSteps (p ++ [e]) := by
        have hx := hc ((p ++ [e]).length)
        rwa [List.take_length] at hx
      have hffull : nFins (p ++ [e]) = 1 → nSteps (p ++ [e]) = N := by
        have hx := hfs ((p ++ [e]).length)
        rwa [List.take_length] at hx
      have hcp : nComps p ≤ nSteps p := by
        have hx := hc2 p.length
        rwa [List.take_length] at hx
      have hfsp : nFins p = 1 → nSteps p = N := by
        have hx := hfs2 p.length
        rwa [List.take_length] at hx
      have hsp : nSteps p ≤ N := by omega
      have hfp : nFins p ≤ 1 := by omega
      obtain ⟨I1, I2, I3⟩ := ih hc2 hsp hfp hfs2
      rw [runPhase_concat]
      rcases hrp : runPhase p with ⟨cc, pc, fr⟩
      rw [hrp] at I1 I2 I3
      have J1 : cc = nSteps p - nComps p := I1
      have J2 : pc = decide (nFins p = 0) := I2
      have J3 : fr = if nComps p = N ∧ nFins p = 1 then 1 else 0 := I3
      cases e with
      | step =>
          have e1 : nSteps (p ++ [PhaseEvent.step]) = nSteps p + 1 := by
            rw [hsapp]
            rfl
          have e2 : nComps (p ++ [PhaseEvent.step]) = nComps p := by
            rw [hcapp]
            rfl
          have e3 : nFins (p ++ [PhaseEvent.step]) = nFins p := by
            rw [hfapp]
            rfl
          rw [e1, e2, e3]
          refine ⟨?_, J2, J3⟩
          show cc + 1 = nSteps p + 1 - nComps p
          omega
      | comp =>
          have e1 : nSteps (p ++ [PhaseEvent.comp]) = nSteps p := by
            rw [hsapp]
            rfl
          have e2 : nComps (p ++ [PhaseEvent.comp]) = nComps p + 1 := by
            rw [hcapp]
            rfl
          have e3 : nFins (p ++ [PhaseEvent.comp]) = nFins p := by
            rw [hfapp]
            rfl
          have hcmp : nComps p + 1 ≤ nSteps p := by
            rw [e2, e1] at hcfull
            exact hcfull
          rw [e1, e2, e3]
          show (changeDone ⟨cc, pc, fr⟩).change_count =
              nSteps p - (nComps p + 1) ∧
            (changeDone ⟨cc, pc, fr⟩).pending_changes =
              decide (nFins p = 0) ∧
            (changeDone ⟨cc, pc, fr⟩).fired =
              if nComps p + 1 = N ∧ nFins p = 1 then 1 else 0
          rw [changeDone_mk]
          have hpos : 0 < cc := by omega
          rw [if_pos hpos]
          by_cases hfin : nFins p = 0
          · have hpc : pc = true := by
              rw [J2, hfin]
              rfl
            have hcond : ¬(cc - 1 = 0 ∧ pc = false) := by
              rw [hpc]
              simp
            rw [if_neg hcond]
            refine ⟨show cc - 1 = nSteps p - (nComps p + 1) by omega, J2, ?_⟩
            show fr = if nComps p + 1 = N ∧ nFins p = 1 then 1 else 0
            rw [J3]
            simp [hfin]
          · have hfin1 : nFins p = 1 := by omega
            have hsN : nSteps p = N := hfsp hfin1
            have hpc : pc = false := by
              rw [J2, hfin1]
              rfl
            by_cases hlast : nComps p + 1 = N
            · have hcz : cc - 1 = 0 := by omega
              rw [if_pos ⟨hcz, hpc⟩]
              refine ⟨show cc - 1 = nSteps p - (nComps p + 1) by omega, J2, ?_⟩
              show fr + 1 = if nComps p + 1 = N ∧ nFins p = 1 then 1 else 0
              rw [J3]
              have hA : ¬(nComps p = N ∧ nFins p = 1) := by omega
              rw [if_neg hA, if_pos ⟨hlast, hfin1⟩]
            · have hcnz : ¬(cc - 1 = 0 ∧ pc = false) := by
                intro hco
                have hx := hco.1
                omega
              rw [if_neg hcnz]
              refine ⟨show cc - 1 = nSteps p - (nComps p + 1) by omega, J2, ?_⟩
              show fr = if nComps p + 1 = N ∧ nFins p = 1 then 1 else 0
              rw [J3]
              have hA : ¬(nComps p = N ∧ nFins p = 1) := by omega
              have hB : ¬(nComps p + 1 = N ∧ nFins p = 1) := by omega
              rw [if_neg hA, if_neg hB]
      | fin =>
          have e1 : nSteps (p ++ [PhaseEvent.fin]) = nSteps p := by
            rw [hsapp]
            rfl
          have e2 : nComps (p ++ [PhaseEvent.fin]) = nComps p := by
            rw [hcapp]
            rfl
          have e3 : nFins (p ++ [PhaseEvent.fin]) = nFins p + 1 := by
            rw [hfapp]
            rfl
          have hf0 : nFins p = 0 := by
            rw [e3] at hf
            omega
          have hsN : nSteps p = N := by
            have hx := hffull (by rw [e3, hf0])
            rwa [e1] at hx
          have hfr : fr = 0 := by
            rw [J3]
            simp [hf0]
          subst hfr
          rw [e1, e2, e3, hf0]
          show (finalizeFn ⟨cc, pc, 0⟩).change_count =
              nSteps p - nComps p ∧
            (finalizeFn ⟨cc, pc, 0⟩).pending_changes =
              decide (0 + 1 = 0) ∧
            (finalizeFn ⟨cc, pc, 0⟩).fired =
              if nComps p = N ∧ 0 + 1 = 1 then 1 else 0
          rw [finalizeFn_mk]
          by_cases hall : nComps p = N
          · have hcz : cc = 0 := by omega
            subst hcz
            rw [if_pos rfl, changeDone_mk]
            rw [if_pos (by decide)]
            refine ⟨show (0 : Nat) = nSteps p - nComps p by omega, by decide, ?_⟩
            show 0 + 1 = if nComps p = N ∧ 0 + 1 = 1 then 1 else 0
            rw [if_pos ⟨hall, rfl⟩]
          · have hcnz : ¬ cc = 0 := by omega
            rw [if_neg hcnz]
            refine ⟨J1, rfl, ?_⟩
            show (0 : Nat) = if nComps p = N ∧ 0 + 1 = 1 then 1 else 0
            rw [if_neg (fun hx => hall hx.1)]

/-- C1: over every admissible trace — `initHandler`, then `N` doStep
submissions, one completion per submission, and one `finalize` after all
submissions, with completions interleaved arbitrarily — the completion
callback is invoked exactly once over the whole trace, and at any point
where it has already been invoked, all `N` completions have occurred and
`finalize` has been called. -/
theorem phaseSequencer_onComplete_exactly_once (N : Nat)
    (tr : List PhaseEvent) (h : ValidTrace N tr) :
    (runPhase tr).fired = 1 ∧
    ∀ p q, tr = p ++ q → 1 ≤ (runPhase p).fired →
      nComps p = N ∧ nFins p = 1 := by
  obtain ⟨hS, hC, hF, hPre⟩ := h
  have main : ∀ p q, tr = p ++ q →
      (runPhase p).change_count = nSteps p - nComps p ∧
      (runPhase p).pending_changes = decide (nFins p = 0) ∧
      (runPhase p).fired = (if nComps p = N ∧ nFins p = 1 then 1 else 0) := by
    intro p q hpq
    have hlen : p.length ≤ tr.length := by
      rw [hpq, List.length_append]
      omega
    apply phase_inv N p
    · intro n
      have hx : p.take n = tr.take (min n p.length) := by
        rw [hpq]
        exact take_prefix_extend p q n
      rw [hx]
      exact (hPre (min n p.length) (by omega)).1
    · have hx := nSteps_append p q
      rw [← hpq] at hx
      omega
    · have hx := nFins_append p q
      rw [← hpq] at hx
      omega
    · intro n
      have hx : p.take n = tr.take (min n p.length) := by
        rw [hpq]
        exact take_prefix_extend p q n
      rw [hx]
      exact (hPre (min n p.length) (by omega)).2
  constructor
  · have hx := (main tr [] (by simp)).2.2
    rw [hx, if_pos ⟨hC, hF⟩]
  · intro p q hpq hfired
    have h3 := (main p q hpq).2.2
    rw [h3] at hfired
    by_cases hcond : nComps p = N ∧ nFins p = 1
    · exact hcond
    · rw [if_neg hcond] at hfired
      omega

/-- C1 witness: two submissions, one completing between them and one
after finalize; the callback fires exactly once. -/
theorem phaseSequencer_onComplete_exactly_once_witness :
    ValidTrace 2 [PhaseEvent.step, PhaseEvent.comp, PhaseEvent.step,
      PhaseEvent.fin, PhaseEvent.comp] ∧
    (runPhase [PhaseEvent.step, PhaseEvent.comp, PhaseEvent.step,
      PhaseEvent.fin, PhaseEvent.comp]).fired = 1 := by
  refine ⟨by decide, ?_⟩
  exact (phaseSequencer_onComplete_exactly_once 2 _ (by decide)).1
